import Mathlib

/-
Verification of the selection engine of crossbeam-channel (src/src/select.rs).

Shallow embedding conventions:
* `usize` values (packed `Selected` words, pointer addresses, state snapshots,
  `Instant`s) are modelled as `Nat`.  Addresses are abstract numbers.
* The channel flavors behind the `SelectHandle` trait are external collaborators
  (spec section 4.2); a handle is modelled as an oracle: the result of each
  capability method as a function of (phase time, slot position), so distinct
  calls may observe distinct channel states.
* The thread context (context.rs, not part of src/) and `utils::shuffle`
  (utils.rs, not part of src/) are modelled from the spec, see `casPublish`,
  `pubStep` and `Env.shuffle` below.
* Loops that may run forever (the probe loop racing an ever-changing
  environment, the blocking outer loop, parking forever) take a fuel parameter;
  an outer `none` result means the fuel ran out, i.e. the call has not returned,
  while `some none` is the "no fire" return and `some (some f)` a fired
  operation.
-/

namespace Crossbeam

/-- `Operation(usize)`: identifier associated with an operation by a specific
thread on a specific channel (select.rs line 31). -/
structure Operation where
  val : Nat
deriving DecidableEq, Repr

/-- `enum Selected` (select.rs lines 51-63): current state of a select or of a
blocking operation. -/
inductive Selected where
  | Waiting
  | Aborted
  | Disconnected
  | Operation (op : Operation)
deriving DecidableEq, Repr

/-- `impl From<usize> for Selected` (select.rs lines 65-75). -/
def Selected.fromUsize (val : Nat) : Selected :=
  match val with
  | 0 => Selected.Waiting
  | 1 => Selected.Aborted
  | 2 => Selected.Disconnected
  | oper => Selected.Operation ⟨oper⟩

/-- `impl Into<usize> for Selected` (select.rs lines 77-87). -/
def Selected.intoUsize : Selected → Nat
  | Selected.Waiting => 0
  | Selected.Aborted => 1
  | Selected.Disconnected => 2
  | Selected.Operation op => op.val

/-- `Operation::hook` (select.rs lines 40-46): turns the address of a reference
into an identifier, with `assert!(val > 2)`; `none` models the assertion
failure (panic). -/
def Operation.hook (val : Nat) : Option Operation :=
  if 2 < val then some ⟨val⟩ else none

/-- C6: the Selected/usize packing is the stated bijection on the valid
domain: Waiting maps to 0, Aborted to 1, Disconnected to 2, Operation(id) to
id; decoding any usize and re-encoding yields the same usize, and any
Operation value whose id lies outside the sentinel set 0,1,2 survives the
encode/decode round trip. -/
theorem selected_pack_bijection (v : Nat) (id op : Operation) (h : 2 < op.val) :
    Selected.intoUsize Selected.Waiting = 0 ∧
    Selected.intoUsize Selected.Aborted = 1 ∧
    Selected.intoUsize Selected.Disconnected = 2 ∧
    Selected.intoUsize (Selected.Operation id) = id.val ∧
    (Selected.fromUsize v).intoUsize = v ∧
    Selected.fromUsize (Selected.Operation op).intoUsize = Selected.Operation op := by
  refine ⟨rfl, rfl, rfl, rfl, ?_, ?_⟩
  · match v with
    | 0 => rfl
    | 1 => rfl
    | 2 => rfl
    | (n+3) => rfl
  · match op, h with
    | ⟨n+3⟩, _ => rfl

/-- Witness for `selected_pack_bijection` at v = 7, id = 9, op = 9. -/
theorem selected_pack_bijection_witness :
    2 < (9 : Nat) ∧
    (Selected.intoUsize Selected.Waiting = 0 ∧
     Selected.intoUsize Selected.Aborted = 1 ∧
     Selected.intoUsize Selected.Disconnected = 2 ∧
     Selected.intoUsize (Selected.Operation ⟨9⟩) = (9 : Nat) ∧
     (Selected.fromUsize 7).intoUsize = 7 ∧
     Selected.fromUsize (Selected.Operation ⟨9⟩).intoUsize = Selected.Operation ⟨9⟩) :=
  ⟨by decide, selected_pack_bijection 7 ⟨9⟩ ⟨9⟩ (by decide)⟩

/-- C7: every identifier produced by `Operation::hook` carries a value strictly
greater than 2, hence never collides with the numerical representation of the
sentinels Waiting = 0, Aborted = 1, Disconnected = 2; under the precondition
that the address exceeds 2 the assertion succeeds and the failure branch is
unreachable (`hook` returns `some`). -/
theorem hook_id_above_sentinels (val : Nat) (h : 2 < val) :
    Operation.hook val = some ⟨val⟩ ∧
    Selected.intoUsize Selected.Waiting < val ∧
    Selected.intoUsize Selected.Aborted < val ∧
    Selected.intoUsize Selected.Disconnected < val := by
  refine ⟨?_, ?_, ?_, ?_⟩
  · simp [Operation.hook, h]
  · show 0 < val; omega
  · show 1 < val; omega
  · show 2 < val; omega

/-- Witness for `hook_id_above_sentinels` at val = 5. -/
theorem hook_id_above_sentinels_witness :
    2 < (5 : Nat) ∧
    (Operation.hook 5 = some ⟨5⟩ ∧
     Selected.intoUsize Selected.Waiting < 5 ∧
     Selected.intoUsize Selected.Aborted < 5 ∧
     Selected.intoUsize Selected.Disconnected < 5) :=
  ⟨by decide, hook_id_above_sentinels 5 (by decide)⟩

/-- `Token` (select.rs lines 21-27): per-flavor scratch carried from the
selection decision to the terminal read/write.  The flavor sub-areas are
external collaborators, so the token is modelled as an opaque unit value. -/
structure Token where
deriving DecidableEq, Repr

/-- Oracle model of the `SelectHandle` trait (select.rs lines 93-122).  Each
non-blocking capability method returns a value determined by the environment;
its result is a function of the phase time and the position of the slot in the
handle list, so every call the engine makes can observe a distinct channel
state.  `addr` is the address of the endpoint (the `*const u8` stored by the
builder). -/
structure SelectHandle where
  tryAt : Nat → Nat → Bool
  retryAt : Nat → Nat → Bool
  deadlineAt : Option Nat
  registerAt : Nat → Nat → Bool
  acceptAt : Nat → Nat → Bool
  stateAt : Nat → Nat → Nat
  addr : Nat

/-- One element of the handle list: the `(&S, usize, *const u8)` triple of
`run_select` (handle, caller index, opaque endpoint pointer). -/
abbrev Slot := SelectHandle × Nat × Nat

/-- The pieces of the execution environment that live outside select.rs:
`shuffle` models `utils::shuffle` (utils.rs is not part of src/; modelled from
the spec: an in-place reordering of the list, indexed by the phase time),
`publishAt t j` is the value, if any, that a peer thread publishes into the
context cell between the engine steps (j, j+1) of phase t (`Selected.Waiting`
means no publication), `now` is the reading of `Instant::now()` at phase time
t, and `slotAddr j` is the address of the j-th slot of the handle list, from
which `Operation::hook` derives the operation identifier. -/
structure Env where
  shuffle : Nat → List Slot → List Slot
  publishAt : Nat → Nat → Selected
  now : Nat → Nat
  slotAddr : Nat → Nat

/-- `enum Timeout` (select.rs lines 156-163). -/
inductive Timeout where
  | Now
  | Never
  | At (when : Nat)
deriving DecidableEq, Repr

/-- The `for &(handle, i, ptr) in handles.iter() { if probe(...) { return
Some((token, i, ptr)) } }` loops of `run_select`: first slot whose probe
succeeds at phase t, starting at slot position j. -/
def firstFireAux (f : SelectHandle → Nat → Nat → Bool) (t : Nat) :
    Nat → List Slot → Option (Nat × Nat)
  | _, [] => none
  | j, s :: rest =>
    if f s.1 t j then some (s.2.1, s.2.2) else firstFireAux f t (j+1) rest

/-- The `try` probe pass (select.rs lines 200-204, 221-225, 253-257). -/
def tryPass (hs : List Slot) (t : Nat) : Option (Nat × Nat) :=
  firstFireAux (fun h t j => h.tryAt t j) t 0 hs

/-- The `retry` probe pass (select.rs lines 261-265). -/
def retryPass (hs : List Slot) (t : Nat) : Option (Nat × Nat) :=
  firstFireAux (fun h t j => h.retryAt t j) t 0 hs

/-- `states.push(handle.state())` over the handle list (select.rs lines
214-217), starting at slot position j. -/
def snapshotAux : List Slot → Nat → Nat → List Nat
  | [], _, _ => []
  | s :: rest, t, j => s.1.stateAt t j :: snapshotAux rest t (j+1)

/-- The snapshot of the channel states of all operations at phase t. -/
def snapshotStates (hs : List Slot) (t : Nat) : List Nat :=
  snapshotAux hs t 0

/-- The state re-read of select.rs lines 227-237: walk `handles.zip(states)`,
re-reading `state()`; a differing entry updates the stored snapshot and sets
the `changed` flag.  Returns the updated snapshot and the flag. -/
def updateStates : List Slot → List Nat → Nat → Nat → List Nat × Bool
  | [], sts, _, _ => (sts, false)
  | _ :: _, [], _, _ => ([], false)
  | s :: hs, st :: sts, t, j =>
    let current := s.1.stateAt t j
    let r := updateStates hs sts t (j+1)
    if st = current then (st :: r.1, r.2) else (current :: r.1, true)

/-- The probe loop of the non-blocking path (select.rs lines 219-243): try all
operations; on no fire re-read all states; if none changed return "no fire"
(`some none`), otherwise repeat with the updated snapshot.  The fuel bounds the
number of passes; `none` means the loop is still racing a changing
environment. -/
def probeLoop (hs : List Slot) : Nat → List Nat → Nat → Option (Option (Nat × Nat))
  | 0, _, _ => none
  | fuel+1, states, t =>
    match tryPass hs t with
    | some f => some (some f)
    | none =>
      let r := updateStates hs states t 0
      if r.2 then probeLoop hs fuel r.1 (t+1) else some none

/-- The `Timeout::Now` branch of `run_select` (select.rs lines 176-189 for the
empty list and 197-244): at most one handle is probed once each; two or more
handles are shuffled, their states snapshotted, and the probe loop runs. -/
def runSelectNowFn (env : Env) (handles : List Slot) (fuel t : Nat) :
    Option (Option (Token × Nat × Nat)) :=
  if handles.isEmpty then some none
  else if handles.length ≤ 1 then
    some ((tryPass handles t).map (fun f => (Token.mk, f.1, f.2)))
  else
    let hs := env.shuffle t handles
    (probeLoop hs fuel (snapshotStates hs t) (t+1)).map
      (Option.map (fun f => (Token.mk, f.1, f.2)))

/-- Modelled from the spec: the thread context (context.rs is not part of
src/).  The context holds one packed `Selected` cell with publish-once CAS
semantics (spec section 3, "Thread context").  `pubStep env t j c` is the value
of the cell as observed by the engine at step (t, j): a peer thread may have
flipped a still-`Waiting` cell to the non-Waiting value `env.publishAt t j`;
a cell already flipped never changes again. -/
def pubStep (env : Env) (t j : Nat) (c : Selected) : Selected :=
  if c = Selected.Waiting then env.publishAt t j else c

/-- Outcome of the registration loop: the local `sel` variable, the context
cell, `registered_count`, and the trace of `register` invocations as (slot
position, operation identifier) pairs. -/
structure RegOut where
  sel : Selected
  cell : Selected
  rc : Nat
  regs : List (Nat × Nat)
deriving DecidableEq, Repr

/-- The registration loop of `run_select` (select.rs lines 269-291), starting
at slot position j with the context cell holding `cell`.  Per slot:
`registered_count` is incremented, `register` is invoked with the hook-derived
identifier of the slot; a `false` return means the operation became ready, so
the engine CASes the cell from Waiting to Aborted (the observed post-state
becomes `sel`) and breaks; otherwise `cx.selected()` is re-read and a
non-Waiting value (a winner published by another thread) breaks the loop. -/
def registerLoop (env : Env) (t : Nat) : Nat → List Slot → Selected → RegOut
  | _, [], cell => ⟨Selected.Waiting, cell, 0, []⟩
  | j, s :: rest, cell =>
    let id := env.slotAddr j
    if ¬ s.1.registerAt t j then
      let c1 := pubStep env t j cell
      if c1 = Selected.Waiting then ⟨Selected.Aborted, Selected.Aborted, 1, [(j, id)]⟩
      else ⟨c1, c1, 1, [(j, id)]⟩
    else
      let c1 := pubStep env t j cell
      if c1 ≠ Selected.Waiting then ⟨c1, c1, 1, [(j, id)]⟩
      else
        let r := registerLoop env t (j+1) rest c1
        ⟨r.sel, r.cell, r.rc + 1, (j, id) :: r.regs⟩

/-- The deadline fold of select.rs lines 296-305: start from the caller
timeout (`Never` gives none, `At when` gives `when`; the `Now` arm is
`unreachable!()` in the source since the blocking path is only entered with a
non-Now timeout) and fold in each handle deadline with min. -/
def foldDeadline (timeout : Timeout) (hs : List Slot) : Option Nat :=
  hs.foldl
    (fun d s =>
      match s.1.deadlineAt with
      | some x => some (match d with | some y => min x y | none => x)
      | none => d)
    (match timeout with
     | Timeout.Now => none
     | Timeout.Never => none
     | Timeout.At when => some when)

/-- The winner-dispatch walk of select.rs lines 320-329, starting at slot
position j: find the slot whose hook-derived identifier equals the published
`Operation` id and try `accept`; a failed accept continues the walk.  Returns
(slot position, caller index, endpoint pointer) of the accepted slot. -/
def dispatchLoop (env : Env) (t : Nat) (sel : Selected) :
    Nat → List Slot → Option (Nat × Nat × Nat)
  | _, [] => none
  | j, s :: rest =>
    if sel = Selected.Operation ⟨env.slotAddr j⟩ then
      if s.1.acceptAt t j then some (j, s.2.1, s.2.2)
      else dispatchLoop env t sel (j+1) rest
    else dispatchLoop env t sel (j+1) rest

/-- Observable outcome of one parking phase (the `Context::with` block,
select.rs lines 268-334): the fired (caller index, pointer) if any, the slot
position whose `accept` succeeded, the resolved `Selected`, the computed
deadline, `registered_count`, and the traces of `register` and `unregister`
invocations as (slot position, operation identifier) pairs. -/
structure ParkOut where
  fire : Option (Nat × Nat)
  accepted : Option Nat
  sel : Selected
  deadline : Option Nat
  rc : Nat
  regs : List (Nat × Nat)
  unregs : List (Nat × Nat)
deriving DecidableEq, Repr

/-- The resolution of `sel` after the registration loop (select.rs lines
293-309): a still-Waiting `sel` parks via `cx.wait_until`, which returns the
value published by a peer or a timeout-induced Aborted (modelled from the
spec, context.rs is not part of src/). -/
def parkSel (env : Env) (t : Nat) (hs : List Slot) (r : RegOut) : Selected :=
  if r.sel = Selected.Waiting then
    let c := pubStep env t hs.length r.cell
    if c = Selected.Waiting then Selected.Aborted else c
  else r.sel

/-- The dispatch of select.rs lines 316-331 on the resolved `Selected`:
Aborted falls through with no fire (the Waiting arm is `unreachable!()` in the
source); Disconnected or Operation walk the handles. -/
def parkDisp (env : Env) (t : Nat) (hs : List Slot) (selW : Selected) :
    Option (Nat × Nat × Nat) :=
  match selW with
  | Selected.Waiting => none
  | Selected.Aborted => none
  | Selected.Disconnected => dispatchLoop env t selW 0 hs
  | Selected.Operation _ => dispatchLoop env t selW 0 hs

/-- The parking phase of `run_select` (select.rs lines 268-334): register all
operations; if `sel` is still Waiting compute the deadline and park;
unconditionally unregister the first `registered_count` handles; dispatch on
the resolved `Selected`. -/
def parkPhase (env : Env) (t : Nat) (hs : List Slot) (timeout : Timeout) : ParkOut :=
  let r := registerLoop env t 0 hs Selected.Waiting
  let selW := parkSel env t hs r
  let disp := parkDisp env t hs selW
  { fire := disp.map (fun x => (x.2.1, x.2.2))
    accepted := disp.map (fun x => x.1)
    sel := selW
    deadline := foldDeadline timeout hs
    rc := r.rc
    regs := r.regs
    unregs := (hs.take r.rc).enum.map (fun x => (x.1, env.slotAddr x.1)) }

/-- The blocking outer loop of `run_select` (select.rs lines 246-353): shuffle
when two or more handles, try, retry, park; on a fired operation return it; on
no fire check the timeout — `Never` loops again, `At when` with the current
instant past `when` falls back to one final non-blocking select (select.rs
lines 345-351), otherwise loops again.  The shuffled list is threaded into the
next iteration (the source shuffles in place).  The `Now` arm of the timeout
check is `unreachable!()` in the source. -/
def blockLoop (env : Env) (timeout : Timeout) :
    Nat → List Slot → Nat → Option (Option (Token × Nat × Nat))
  | 0, _, _ => none
  | fuel+1, handles, t =>
    let hs := if handles.length ≥ 2 then env.shuffle t handles else handles
    match tryPass hs t with
    | some f => some (some (Token.mk, f.1, f.2))
    | none =>
      match retryPass hs t with
      | some f => some (some (Token.mk, f.1, f.2))
      | none =>
        match (parkPhase env t hs timeout).fire with
        | some f => some (some (Token.mk, f.1, f.2))
        | none =>
          match timeout with
          | Timeout.Now => none
          | Timeout.Never => blockLoop env timeout fuel hs (t+1)
          | Timeout.At when =>
            if env.now t ≥ when then runSelectNowFn env hs fuel (t+1)
            else blockLoop env timeout fuel hs (t+1)

/-- `run_select` (select.rs lines 169-354).  An empty handle list waits out
the timeout (`Never` parks the thread forever, which the fuel model renders as
the diverging outer `none`); `Timeout::Now` runs the non-blocking path; any
other timeout runs the blocking outer loop. -/
def runSelect (env : Env) (handles : List Slot) (timeout : Timeout) (fuel t : Nat) :
    Option (Option (Token × Nat × Nat)) :=
  if handles.isEmpty then
    match timeout with
    | Timeout.Now => some none
    | Timeout.Never => none
    | Timeout.At _ => some none
  else if timeout = Timeout.Now then runSelectNowFn env handles fuel t
  else blockLoop env timeout fuel handles t

/-- Modelled from the spec: the single-winner handshake of the thread context
(context.rs is not part of src/; spec sections 4.3.4 and 5).  `casPublish c l`
runs the CAS attempts `l` (one per signalling channel, each trying to flip the
cell from Waiting to its non-Waiting value) against a cell holding `c`; it
returns the final cell value and, per attempt, whether that attempt won. -/
def casPublish : Selected → List Selected → Selected × List Bool
  | c, [] => (c, [])
  | c, a :: rest =>
    if c = Selected.Waiting then
      let r := casPublish a rest
      (r.1, true :: r.2)
    else
      let r := casPublish c rest
      (r.1, false :: r.2)

/-- `TrySelectError` (err.rs is an external collaborator; unit error type). -/
structure TrySelectError where
deriving DecidableEq, Repr

/-- `SelectTimeoutError` (err.rs is an external collaborator; unit error). -/
structure SelectTimeoutError where
deriving DecidableEq, Repr

/-- `RecvError` (err.rs is an external collaborator; unit error type). -/
structure RecvError where
deriving DecidableEq, Repr

/-- `SendError` (err.rs is an external collaborator): returns the unsent
message, here of type Nat, to the caller. -/
structure SendError where
  msg : Nat
deriving DecidableEq, Repr

/-- `struct Select` (select.rs lines 447-450): the list of senders and
receivers participating in selection. -/
structure Select where
  handles : List Slot

/-- `Select::new` (select.rs lines 457-461). -/
def Select.new : Select := ⟨[]⟩

/-- `Select::recv` (select.rs lines 464-469): append a handle with the current
list length as its caller index and the endpoint address as its opaque
pointer; return the index. -/
def Select.recv (b : Select) (r : SelectHandle) : Nat × Select :=
  let i := b.handles.length
  (i, ⟨b.handles ++ [(r, i, r.addr)]⟩)

/-- `Select::send` (select.rs lines 472-477): same as `recv` for a sender. -/
def Select.send (b : Select) (s : SelectHandle) : Nat × Select :=
  let i := b.handles.length
  (i, ⟨b.handles ++ [(s, i, s.addr)]⟩)

/-- `struct SelectedCase` (select.rs lines 538-547): the one-shot completion
handle carrying the token, the caller index, and the opaque endpoint
pointer. -/
structure SelectedCase where
  token : Token
  index : Nat
  ptr : Nat
deriving DecidableEq, Repr

/-- Loud faults: an assertion or explicit panic (with its message), or a
process abort. -/
inductive Fault where
  | panic (msg : String)
  | abort
deriving DecidableEq, Repr

/-- Whether a fault is a process abort. -/
def Fault.isAbort : Fault → Bool
  | Fault.abort => true
  | Fault.panic _ => false

/-- The assertion message of `SelectedCase::recv` (select.rs line 559). -/
def wrongReceiverMsg : String := "passed a receiver that wasn't selected"

/-- The assertion message of `SelectedCase::send` (select.rs line 570). -/
def wrongSenderMsg : String := "passed a sender that wasn't selected"

/-- The panic message of `impl Drop for SelectedCase` (select.rs line 586). -/
def dropCaseMsg : String := "dropped `SelectedCase` without completing the operation"

/-- The endpoint-identity assertion of `SelectedCase::recv` (select.rs lines
557-560): the address of the passed receiver must equal the stored opaque
pointer, else the assertion panics. -/
def SelectedCase.recvAssert (c : SelectedCase) (r : SelectHandle) : Except Fault Unit :=
  if r.addr = c.ptr then Except.ok () else Except.error (Fault.panic wrongReceiverMsg)

/-- The endpoint-identity assertion of `SelectedCase::send` (select.rs lines
568-571). -/
def SelectedCase.sendAssert (c : SelectedCase) (s : SelectHandle) : Except Fault Unit :=
  if s.addr = c.ptr then Except.ok () else Except.error (Fault.panic wrongSenderMsg)

/-- `SelectedCase::recv` (select.rs lines 556-564): assert endpoint identity,
finalize via the external `channel::read` (its success supplied by `readOk`;
a failure surfaces as `RecvError`), then `mem::forget(self)`.  The Bool in the
result records whether the scoped destructor ran: `false`, the handle is
retired without running it. -/
def SelectedCase.recvCase (c : SelectedCase) (r : SelectHandle) (readOk : Bool) :
    Except Fault (Except RecvError Unit × Bool) :=
  match c.recvAssert r with
  | Except.error f => Except.error f
  | Except.ok () =>
    Except.ok ((if readOk then Except.ok () else Except.error ⟨⟩), false)

/-- `SelectedCase::send` (select.rs lines 567-575): assert endpoint identity,
finalize via the external `channel::write` (success supplied by `writeOk`; a
failure returns the unsent message inside `SendError`), then
`mem::forget(self)`; the Bool records that the destructor did not run. -/
def SelectedCase.sendCase (c : SelectedCase) (s : SelectHandle) (m : Nat) (writeOk : Bool) :
    Except Fault (Except SendError Unit × Bool) :=
  match c.sendAssert s with
  | Except.error f => Except.error f
  | Except.ok () =>
    Except.ok ((if writeOk then Except.ok () else Except.error ⟨m⟩), false)

/-- `impl Drop for SelectedCase` (select.rs lines 584-588): reaching the
scoped-release path panics with `dropCaseMsg`. -/
def SelectedCase.dropRun (_c : SelectedCase) : Fault := Fault.panic dropCaseMsg

/-- `Select::try_select` (select.rs lines 480-490): invoke the engine with
`Timeout::Now`; "no fire" becomes `TrySelectError`, a fired operation becomes
a completion handle.  The outer `none` is the diverging (out of fuel) case. -/
def Select.trySelect (b : Select) (env : Env) (fuel t : Nat) :
    Option (Except TrySelectError SelectedCase) :=
  (runSelect env b.handles Timeout.Now fuel t).map
    (fun r =>
      match r with
      | none => Except.error ⟨⟩
      | some f => Except.ok ⟨f.1, f.2.1, f.2.2⟩)

/-- The panic message of `Option::unwrap` on None (Rust standard library). -/
def unwrapNoneMsg : String := "called `Option::unwrap()` on a `None` value"

/-- `Select::select` (select.rs lines 493-501): invoke the engine with
`Timeout::Never` and `unwrap()` the result; the `Except.error` branch models
the unwrap panic on a `None` engine result. -/
def Select.select (b : Select) (env : Env) (fuel t : Nat) :
    Option (Except String SelectedCase) :=
  (runSelect env b.handles Timeout.Never fuel t).map
    (fun r =>
      match r with
      | none => Except.error unwrapNoneMsg
      | some f => Except.ok ⟨f.1, f.2.1, f.2.2⟩)

/-- Wrapping of the engine result by `Select::select_timeout` (select.rs lines
510-518): "no fire" becomes `SelectTimeoutError`. -/
def timeoutWrap : Option (Token × Nat × Nat) → Except SelectTimeoutError SelectedCase
  | none => Except.error ⟨⟩
  | some f => Except.ok ⟨f.1, f.2.1, f.2.2⟩

/-- `Select::select_timeout` (select.rs lines 504-519): invoke the engine with
`Timeout::At(Instant::now() + timeout)`. -/
def Select.selectTimeout (b : Select) (d : Nat) (env : Env) (fuel t : Nat) :
    Option (Except SelectTimeoutError SelectedCase) :=
  (runSelect env b.handles (Timeout.At (env.now t + d)) fuel (t+1)).map timeoutWrap

/-- Builder obtained by adding the handles of l in order via `Select::recv`. -/
def buildRecv (l : List SelectHandle) : Select :=
  l.foldl (fun b h => (Select.recv b h).2) Select.new

/-- Whether an engine result is the "no fire" return `some none` (as opposed
to a fired operation or to running out of fuel). -/
def isNoFire : Option (Option (Token × Nat × Nat)) → Bool
  | some none => true
  | _ => false

/-- Whether a `Select::select` call panicked in its `unwrap()`. -/
def selectPanicked : Option (Except String SelectedCase) → Bool
  | some (Except.error _) => true
  | _ => false

/-- Fixture: a handle that is never ready (try/retry/accept fail, register
succeeds, constant channel state) at endpoint address a. -/
def idleHandle (a : Nat) : SelectHandle :=
  ⟨fun _ _ => false, fun _ _ => false, none, fun _ _ => true, fun _ _ => false,
   fun _ _ => 0, a⟩

/-- Fixture: a handle that is always ready at endpoint address a. -/
def readyHandle (a : Nat) : SelectHandle :=
  ⟨fun _ _ => true, fun _ _ => true, none, fun _ _ => true, fun _ _ => true,
   fun _ _ => 0, a⟩

/-- Fixture: an environment with the identity shuffle, no peer publication,
the clock frozen at 100, and slot address j + 10 for slot j. -/
def envQuiet : Env :=
  ⟨fun _ xs => xs, fun _ _ => Selected.Waiting, fun _ => 100, fun j => j + 10⟩

/-- Fixture: like `envQuiet` but a peer immediately publishes the winner
`Operation 10` (the identifier of slot 0). -/
def envPub : Env :=
  ⟨fun _ xs => xs, fun _ _ => Selected.Operation ⟨10⟩, fun _ => 100,
   fun j => j + 10⟩

/-- Fixture: a builder holding two never-ready handles. -/
def twoIdle : Select := ⟨[(idleHandle 5, 0, 5), (idleHandle 6, 1, 6)]⟩

/-- Fixture: a builder holding one never-ready handle. -/
def oneIdle : Select := ⟨[(idleHandle 5, 0, 5)]⟩

/-- Once the cell holds a non-Waiting value, every further CAS attempt loses
and the cell keeps its value. -/
lemma casPublish_lost (c : Selected) (hc : c ≠ Selected.Waiting) :
    ∀ l : List Selected, casPublish c l = (c, List.replicate l.length false) := by
  intro l
  induction l with
  | nil => simp [casPublish]
  | cons a rest ih => simp [casPublish, hc, ih, List.replicate]

/-- There is no `true` among replicated `false` results. -/
lemma count_true_replicate_false :
    ∀ n : Nat, List.count true (List.replicate n false) = 0 := by
  intro n
  induction n with
  | zero => rfl
  | succ m ih => simp [List.replicate, List.count_cons, ih]

/-- C1: the single-winner handshake.  For every race of CAS attempts on the
context cell (one attempt per signalled channel, each trying to flip the
packed `Selected` cell from Waiting to its non-Waiting value), exactly one
attempt succeeds: the first one wins, flips the cell to its value for good,
and every later attempt loses and becomes a no-op, so exactly one endpoint
observes a completed operation per successful selection. -/
theorem single_winner_cas (a : Selected) (l : List Selected)
    (ha : a ≠ Selected.Waiting) :
    casPublish Selected.Waiting (a :: l) =
      (a, true :: List.replicate l.length false) ∧
    (casPublish Selected.Waiting (a :: l)).2.count true = 1 := by
  have hstep : casPublish Selected.Waiting (a :: l) =
      (a, true :: List.replicate l.length false) := by
    simp [casPublish, casPublish_lost a ha l]
  refine ⟨hstep, ?_⟩
  rw [hstep]
  simp [List.count_cons, count_true_replicate_false]

/-- Witness for `single_winner_cas`: a Disconnected publication racing two
later attempts. -/
theorem single_winner_cas_witness :
    Selected.Disconnected ≠ Selected.Waiting ∧
    (casPublish Selected.Waiting
        [Selected.Disconnected, Selected.Operation ⟨5⟩, Selected.Aborted] =
      (Selected.Disconnected, [true, false, false]) ∧
    (casPublish Selected.Waiting
        [Selected.Disconnected, Selected.Operation ⟨5⟩, Selected.Aborted]).2.count
        true = 1) :=
  ⟨by decide,
   single_winner_cas Selected.Disconnected
     [Selected.Operation ⟨5⟩, Selected.Aborted] (by decide)⟩

/-- The registration loop registers exactly the slots j, j+1, ..., j+rc-1, in
order, each under its hook-derived identifier, and registers no more slots
than the list holds. -/
lemma registerLoop_spec (env : Env) (t : Nat) :
    ∀ (hs : List Slot) (j : Nat) (cell : Selected),
      (registerLoop env t j hs cell).regs =
        (List.range' j (registerLoop env t j hs cell).rc).map
          (fun i => (i, env.slotAddr i)) ∧
      (registerLoop env t j hs cell).rc ≤ hs.length := by
  intro hs
  induction hs with
  | nil => intro j cell; simp [registerLoop]
  | cons s rest ih =>
    intro j cell
    by_cases h1 : s.1.registerAt t j
    · by_cases h2 : pubStep env t j cell = Selected.Waiting
      · have hrec := ih (j+1) (pubStep env t j cell)
        rw [h2] at hrec
        simp only [registerLoop, h1, h2, not_true_eq_false, if_false, ne_eq,
          not_false_eq_true, if_neg, ite_false, ite_true]
        refine ⟨?_, ?_⟩
        · rw [List.range'_succ]
          simp [hrec.1]
        · have := hrec.2
          simpa using Nat.succ_le_succ this
      · simp [registerLoop, h1, h2, List.range'_succ, Nat.succ_le_succ]
    · by_cases h2 : pubStep env t j cell = Selected.Waiting
      · simp [registerLoop, h1, h2, List.range'_succ, Nat.succ_le_succ]
      · simp [registerLoop, h1, h2, List.range'_succ, Nat.succ_le_succ]

/-- The register trace of a parking phase lists exactly the first
`registered_count` slots with their hook-derived identifiers. -/
lemma parkPhase_regs_eq (env : Env) (t : Nat) (hs : List Slot) (tm : Timeout) :
    (parkPhase env t hs tm).regs =
      (List.range (parkPhase env t hs tm).rc).map (fun i => (i, env.slotAddr i)) := by
  have h := (registerLoop_spec env t hs 0 Selected.Waiting).1
  simp only [parkPhase]
  rw [h, List.range_eq_range']

/-- A parking phase registers no more slots than the list holds. -/
lemma parkPhase_rc_le (env : Env) (t : Nat) (hs : List Slot) (tm : Timeout) :
    (parkPhase env t hs tm).rc ≤ hs.length := by
  have h := (registerLoop_spec env t hs 0 Selected.Waiting).2
  simpa [parkPhase] using h

/-- The unregister trace of a parking phase lists exactly the first
`registered_count` slots with their hook-derived identifiers. -/
lemma parkPhase_unregs_eq (env : Env) (t : Nat) (hs : List Slot) (tm : Timeout) :
    (parkPhase env t hs tm).unregs =
      (List.range (parkPhase env t hs tm).rc).map (fun i => (i, env.slotAddr i)) := by
  have hle := parkPhase_rc_le env t hs tm
  have hrc : (parkPhase env t hs tm).rc = (registerLoop env t 0 hs Selected.Waiting).rc := by
    simp [parkPhase]
  have hun : (parkPhase env t hs tm).unregs =
      ((hs.take (parkPhase env t hs tm).rc).enum.map (fun x => (x.1, env.slotAddr x.1))) := by
    simp [parkPhase]
  rw [hun]
  have hcomp : (hs.take (parkPhase env t hs tm).rc).enum.map
      (fun x => (x.1, env.slotAddr x.1)) =
      ((hs.take (parkPhase env t hs tm).rc).enum.map Prod.fst).map
        (fun i => (i, env.slotAddr i)) := by
    rw [List.map_map]
    rfl
  rw [hcomp, List.enum_map_fst, List.length_take, Nat.min_eq_left hle]

/-- C4: on every exit path from the parking phase (registration aborted by a
`false` register, registration stopped by a published winner, or a normal
wakeup from the park), `unregister` is invoked on exactly the prefix of
handles that was registered: the first `registered_count` handles, each under
its hook-derived identifier, and no others. -/
theorem unregister_exact_prefix (env : Env) (t : Nat) (hs : List Slot) (tm : Timeout) :
    (parkPhase env t hs tm).unregs = (parkPhase env t hs tm).regs ∧
    (parkPhase env t hs tm).unregs =
      (List.range (parkPhase env t hs tm).rc).map (fun i => (i, env.slotAddr i)) ∧
    (parkPhase env t hs tm).rc ≤ hs.length := by
  refine ⟨?_, parkPhase_unregs_eq env t hs tm, parkPhase_rc_le env t hs tm⟩
  rw [parkPhase_unregs_eq env t hs tm, parkPhase_regs_eq env t hs tm]

/-- The dispatch walk only accepts a slot whose hook-derived identifier
equals the published Operation id. -/
lemma dispatchLoop_op (env : Env) (t : Nat) (sel : Selected) :
    ∀ (hs : List Slot) (j : Nat) (out : Nat × Nat × Nat),
      dispatchLoop env t sel j hs = some out →
      sel = Selected.Operation ⟨env.slotAddr out.1⟩ := by
  intro hs
  induction hs with
  | nil => intro j out h; simp [dispatchLoop] at h
  | cons s rest ih =>
    intro j out h
    by_cases hcond : sel = Selected.Operation ⟨env.slotAddr j⟩
    · by_cases hacc : s.1.acceptAt t j
      · simp only [dispatchLoop, hcond, if_pos, hacc, ite_true] at h
        cases h
        exact hcond
      · simp only [dispatchLoop, if_pos hcond, hacc, ite_false] at h
        exact ih (j+1) out h
    · simp only [dispatchLoop, if_neg hcond] at h
      exact ih (j+1) out h

/-- A parking-phase dispatch that accepted a slot resolved to the published
Operation carrying that slot identifier. -/
lemma parkDisp_op (env : Env) (t : Nat) (hs : List Slot) (selW : Selected)
    (out : Nat × Nat × Nat) (h : parkDisp env t hs selW = some out) :
    selW = Selected.Operation ⟨env.slotAddr out.1⟩ := by
  cases selW with
  | Waiting => simp [parkDisp] at h
  | Aborted => simp [parkDisp] at h
  | Disconnected => exact dispatchLoop_op env t _ hs 0 out h
  | Operation op => exact dispatchLoop_op env t _ hs 0 out h

/-- C10: within one parking phase the operation identifier of each handle is
derived from its slot in the handle list, and because the list is not
reordered between the registration loop, the unregistration loop, and the
winner-dispatch walk, the register call, the unregister call, and the
comparison against the published Operation(id) of slot j all use the same
identifier value, the slot address of j. -/
theorem oper_id_consistent (env : Env) (t : Nat) (hs : List Slot) (tm : Timeout)
    (j id1 id2 : Nat)
    (h1 : (j, id1) ∈ (parkPhase env t hs tm).regs)
    (h2 : (j, id2) ∈ (parkPhase env t hs tm).unregs) :
    id1 = env.slotAddr j ∧ id2 = env.slotAddr j ∧
    ((parkPhase env t hs tm).accepted = some j →
      (parkPhase env t hs tm).sel = Selected.Operation ⟨env.slotAddr j⟩) := by
  rw [parkPhase_regs_eq env t hs tm] at h1
  rw [parkPhase_unregs_eq env t hs tm] at h2
  rcases List.mem_map.mp h1 with ⟨i1, _, heq1⟩
  rcases List.mem_map.mp h2 with ⟨i2, _, heq2⟩
  rcases Prod.mk.injEq .. ▸ heq1 with ⟨rfl, h1v⟩
  rcases Prod.mk.injEq .. ▸ heq2 with ⟨rfl, h2v⟩
  refine ⟨h1v.symm ▸ rfl, h2v.symm ▸ rfl, ?_⟩
  intro hacc
  have haccd : (parkPhase env t hs tm).accepted =
      (parkDisp env t hs (parkSel env t hs (registerLoop env t 0 hs Selected.Waiting))).map
        (fun x => x.1) := by
    simp [parkPhase]
  have hsel : (parkPhase env t hs tm).sel =
      parkSel env t hs (registerLoop env t 0 hs Selected.Waiting) := by
    simp [parkPhase]
  rw [haccd] at hacc
  rcases Option.map_eq_some'.mp hacc with ⟨out, hout, houtj⟩
  have := parkDisp_op env t hs _ out hout
  rw [hsel, this, houtj]

/-- Witness for `oper_id_consistent`: one ready handle, a peer that publishes
Operation 10 (the identifier of slot 0) during registration. -/
theorem oper_id_consistent_witness :
    ((0, 10) ∈ (parkPhase envPub 0 [(readyHandle 7, 0, 7)] Timeout.Never).regs) ∧
    ((0, 10) ∈ (parkPhase envPub 0 [(readyHandle 7, 0, 7)] Timeout.Never).unregs) ∧
    (parkPhase envPub 0 [(readyHandle 7, 0, 7)] Timeout.Never).sel =
      Selected.Operation ⟨envPub.slotAddr 0⟩ :=
  ⟨by decide, by decide,
   (oper_id_consistent envPub 0 [(readyHandle 7, 0, 7)] Timeout.Never 0 10 10
      (by decide) (by decide)).2.2 (by decide)⟩

/-- With `Timeout::Never` the blocking outer loop never takes a "no fire"
exit: every no-fire parking phase falls through to the next iteration. -/
lemma blockLoop_never_noFire (env : Env) :
    ∀ (fuel : Nat) (hs : List Slot) (t : Nat),
      isNoFire (blockLoop env Timeout.Never fuel hs t) = false := by
  intro fuel
  induction fuel with
  | zero => intro hs t; rfl
  | succ n ih =>
    intro hs t
    simp only [blockLoop]
    cases h1 : tryPass (if hs.length ≥ 2 then env.shuffle t hs else hs) t with
    | some f => simp [isNoFire]
    | none =>
      cases h2 : retryPass (if hs.length ≥ 2 then env.shuffle t hs else hs) t with
      | some f => simp [isNoFire]
      | none =>
        cases h3 : (parkPhase env t (if hs.length ≥ 2 then env.shuffle t hs else hs)
            Timeout.Never).fire with
        | some f => simp [isNoFire]
        | none => exact ih _ (t+1)

/-- C3: `run_select` invoked with `Timeout::Never` never returns None ("no
fire"): an empty list parks the thread forever (the fuel model renders the
unreached path after the park as divergence), and on a non-empty list the
timeout check never exits the outer loop; consequently the unwrap inside
`Select::select` never panics and `select()` always returns a completion
handle when it returns at all. -/
theorem select_never_always_fires (env : Env) (hs : List Slot) (b : Select)
    (fuel t fuel2 t2 : Nat) :
    isNoFire (runSelect env hs Timeout.Never fuel t) = false ∧
    selectPanicked (Select.select b env fuel2 t2) = false := by
  have main : ∀ (l : List Slot) (f u : Nat),
      isNoFire (runSelect env l Timeout.Never f u) = false := by
    intro l f u
    by_cases he : l.isEmpty
    · simp [runSelect, he, isNoFire]
    · simp only [runSelect, he, if_false]
      have : (Timeout.Never = Timeout.Now) = False := by simp
      simp only [this, if_false]
      exact blockLoop_never_noFire env f l u
  refine ⟨main hs fuel t, ?_⟩
  have hb := main b.handles fuel2 t2
  unfold Select.select
  cases hx : runSelect env b.handles Timeout.Never fuel2 t2 with
  | none => rfl
  | some r =>
    cases r with
    | none => rw [hx] at hb; simp [isNoFire] at hb
    | some f => simp [selectPanicked]

/-- A snapshot has one state per handle. -/
lemma snapshotAux_length :
    ∀ (hs : List Slot) (t j : Nat), (snapshotAux hs t j).length = hs.length := by
  intro hs
  induction hs with
  | nil => intro t j; rfl
  | cons s rest ih => intro t j; simp [snapshotAux, ih]

/-- The state re-read replaces the stored snapshot with the current one. -/
lemma updateStates_fst :
    ∀ (hs : List Slot) (sts : List Nat) (t j : Nat), sts.length = hs.length →
      (updateStates hs sts t j).1 = snapshotAux hs t j := by
  intro hs
  induction hs with
  | nil =>
    intro sts t j hlen
    cases sts with
    | nil => rfl
    | cons a l => simp at hlen
  | cons s rest ih =>
    intro sts t j hlen
    cases sts with
    | nil => simp at hlen
    | cons st sts =>
      simp only [List.length_cons, Nat.succ.injEq] at hlen
      by_cases hst : st = s.1.stateAt t j
      · simp [updateStates, hst, snapshotAux, ih sts t (j+1) hlen]
      · simp [updateStates, hst, snapshotAux, ih sts t (j+1) hlen]

/-- The `changed` flag is clear exactly when the re-read states all equal the
stored snapshot. -/
lemma updateStates_snd :
    ∀ (hs : List Slot) (sts : List Nat) (t j : Nat), sts.length = hs.length →
      ((updateStates hs sts t j).2 = false ↔ sts = snapshotAux hs t j) := by
  intro hs
  induction hs with
  | nil =>
    intro sts t j hlen
    cases sts with
    | nil => simp [updateStates, snapshotAux]
    | cons a l => simp at hlen
  | cons s rest ih =>
    intro sts t j hlen
    cases sts with
    | nil => simp at hlen
    | cons st sts =>
      simp only [List.length_cons, Nat.succ.injEq] at hlen
      by_cases hst : st = s.1.stateAt t j
      · simp [updateStates, hst, snapshotAux, ih sts t (j+1) hlen]
      · simp [updateStates, hst, snapshotAux, ih sts t (j+1) hlen]

/-- A probe pass that fired nothing means every single try failed. -/
lemma firstFireAux_none (f : SelectHandle → Nat → Nat → Bool) (t : Nat) :
    ∀ (hs : List Slot) (j : Nat), firstFireAux f t j hs = none →
      ∀ (i : Nat) (s : Slot), hs[i]? = some s → f s.1 t (j + i) = false := by
  intro hs
  induction hs with
  | nil => intro j hnone i s hget; simp at hget
  | cons a rest ih =>
    intro j hnone i s hget
    by_cases hf : f a.1 t j
    · simp [firstFireAux, hf] at hnone
    · simp only [firstFireAux, hf, if_false, ite_false] at hnone
      cases i with
      | zero =>
        simp only [List.getElem?_cons_zero, Option.some.injEq] at hget
        subst hget
        simpa using hf
      | succ m =>
        simp only [List.getElem?_cons_succ] at hget
        have := ih (j+1) hnone m s hget
        have harith : j + (m + 1) = (j + 1) + m := by omega
        rw [harith]
        exact this

/-- If the probe loop returns "no fire" from a state that is some earlier
snapshot, then some pass failed every try and re-read states equal to a
snapshot stored at an earlier pass. -/
lemma probeLoop_none_stable (hs : List Slot) :
    ∀ (fuel : Nat) (states : List Nat) (t : Nat),
      probeLoop hs fuel states t = some none →
      states.length = hs.length →
      (∃ q, q < t ∧ states = snapshotStates hs q) →
      ∃ p q, q < p ∧ tryPass hs p = none ∧
        snapshotStates hs p = snapshotStates hs q := by
  intro fuel
  induction fuel with
  | zero => intro states t h; simp [probeLoop] at h
  | succ n ih =>
    intro states t h hlen hq
    simp only [probeLoop] at h
    cases h1 : tryPass hs t with
    | some f => rw [h1] at h; simp at h
    | none =>
      rw [h1] at h
      by_cases h2 : (updateStates hs states t 0).2
      · rw [if_pos h2] at h
        have hfst := updateStates_fst hs states t 0 hlen
        apply ih (updateStates hs states t 0).1 (t+1) h
        · rw [hfst]; exact snapshotAux_length hs t 0
        · exact ⟨t, Nat.lt_succ_self t, hfst⟩
      · have h2f : (updateStates hs states t 0).2 = false := by
          simpa using h2
        have hstable := (updateStates_snd hs states t 0 hlen).mp h2f
        rcases hq with ⟨q, hqt, hqs⟩
        refine ⟨t, q, hqt, h1, ?_⟩
        show snapshotAux hs t 0 = snapshotStates hs q
        rw [← hstable]
        exact hqs

/-- C2: for a handle list with at least two handles in non-blocking mode,
`run_select` returns "no fire" — surfaced by `try_select` as `TrySelectError` —
only after a complete probing pass p in which every handle try failed and the
re-read of every handle state equalled the snapshot stored at some earlier
pass q; a differing state updates the snapshot and repeats the loop, which is
why the final pass states coincide with a stored snapshot. -/
theorem try_select_stable_snapshot (b : Select) (env : Env) (fuel t : Nat)
    (hlen : 2 ≤ b.handles.length)
    (hrun : Select.trySelect b env fuel t = some (Except.error ⟨⟩)) :
    ∃ p q, q < p ∧
      tryPass (env.shuffle t b.handles) p = none ∧
      (∀ (j : Nat) (s : Slot), (env.shuffle t b.handles)[j]? = some s →
        s.1.tryAt p j = false) ∧
      snapshotStates (env.shuffle t b.handles) p =
        snapshotStates (env.shuffle t b.handles) q := by
  have hne : b.handles.isEmpty = false := by
    cases hb : b.handles with
    | nil => rw [hb] at hlen; exact absurd hlen (by decide)
    | cons a l => rfl
  have hle : ¬ b.handles.length ≤ 1 := by omega
  rcases Option.map_eq_some'.mp hrun with ⟨r, hr, hFr⟩
  cases r with
  | some f => simp at hFr
  | none =>
    simp only [runSelect, hne, Bool.false_eq_true, if_false, ite_true,
      runSelectNowFn, hle, ite_false] at hr
    rcases Option.map_eq_some'.mp hr with ⟨y, hy, hGy⟩
    have hyn : y = none := Option.map_eq_none'.mp hGy
    subst hyn
    rcases probeLoop_none_stable (env.shuffle t b.handles) fuel
        (snapshotStates (env.shuffle t b.handles) t) (t+1) hy
        (snapshotAux_length (env.shuffle t b.handles) t 0)
        ⟨t, Nat.lt_succ_self t, rfl⟩ with ⟨p, q, hpq, htp, hsnap⟩
    refine ⟨p, q, hpq, htp, ?_, hsnap⟩
    intro j s hget
    have := firstFireAux_none (fun h t j => h.tryAt t j) p
      (env.shuffle t b.handles) 0 htp j s hget
    simpa using this

/-- Witness for `try_select_stable_snapshot`: two never-ready handles with
constant channel states reach a stable pass immediately. -/
theorem try_select_stable_snapshot_witness :
    2 ≤ twoIdle.handles.length ∧
    (∃ p q, q < p ∧
      tryPass (envQuiet.shuffle 0 twoIdle.handles) p = none ∧
      snapshotStates (envQuiet.shuffle 0 twoIdle.handles) p =
        snapshotStates (envQuiet.shuffle 0 twoIdle.handles) q) := by
  refine ⟨by decide, ?_⟩
  rcases try_select_stable_snapshot twoIdle envQuiet 1 0 (by decide) (by rfl)
    with ⟨p, q, h1, h2, _, h4⟩
  exact ⟨p, q, h1, h2, h4⟩

/-- C5: with timeout `At(when)`, after a blocking iteration whose try pass,
retry pass, and parking phase all yield no fire, if the current instant has
reached `when` the engine performs exactly one final non-blocking pass (a
recursive `run_select` with `Timeout::Now` on the current, shuffled handle
list) and returns that pass result; `select_timeout(d)` invokes the engine
with `At(now + d)` and, through `timeoutWrap`, fails with `SelectTimeoutError`
exactly when that final pass returns "no fire". -/
theorem timeout_final_now_pass (b : Select) (env : Env) (d fuel t : Nat)
    (hs1 : List Slot)
    (hne : b.handles.isEmpty = false)
    (hhs1 : hs1 = if b.handles.length ≥ 2 then env.shuffle (t+1) b.handles
      else b.handles)
    (htry : tryPass hs1 (t+1) = none)
    (hretry : retryPass hs1 (t+1) = none)
    (hpark : (parkPhase env (t+1) hs1 (Timeout.At (env.now t + d))).fire = none)
    (hnow : env.now t + d ≤ env.now (t+1)) :
    Select.selectTimeout b d env (fuel+1) t =
      (runSelectNowFn env hs1 fuel (t+2)).map timeoutWrap := by
  unfold Select.selectTimeout
  have hrs : runSelect env b.handles (Timeout.At (env.now t + d)) (fuel+1) (t+1) =
      runSelectNowFn env hs1 fuel (t+2) := by
    simp only [runSelect, hne, Bool.false_eq_true, if_false]
    have hAt : (Timeout.At (env.now t + d) = Timeout.Now) = False := by simp
    simp only [hAt, if_false]
    simp only [blockLoop, ← hhs1, htry, hretry, hpark]
    simp [ge_iff_le, hnow]
  rw [hrs]

/-- Witness for `timeout_final_now_pass`: one never-ready handle, an already
expired deadline; one blocking iteration falls into the final non-blocking
pass, whose "no fire" surfaces as `SelectTimeoutError`. -/
theorem timeout_final_now_pass_witness :
    Select.selectTimeout oneIdle 0 envQuiet 2 0 =
      (runSelectNowFn envQuiet oneIdle.handles 1 2).map timeoutWrap :=
  timeout_final_now_pass oneIdle envQuiet 0 1 0 oneIdle.handles rfl (by rfl)
    (by rfl) (by rfl) (by rfl) (by decide)

/-- A fired probe pass returns the caller index and pointer of a slot of the
probed list. -/
lemma firstFireAux_mem (f : SelectHandle → Nat → Nat → Bool) (t : Nat) :
    ∀ (hs : List Slot) (j i p : Nat), firstFireAux f t j hs = some (i, p) →
      ∃ h, (h, i, p) ∈ hs := by
  intro hs
  induction hs with
  | nil => intro j i p hmem; simp [firstFireAux] at hmem
  | cons s rest ih =>
    intro j i p hmem
    by_cases hf : f s.1 t j
    · simp only [firstFireAux, hf, ite_true, Option.some.injEq] at hmem
      refine ⟨s.1, ?_⟩
      have hs2 : (s.1, i, p) = s := by rw [← hmem]
      rw [hs2]
      exact List.mem_cons_self s rest
    · simp only [firstFireAux, hf, ite_false] at hmem
      rcases ih (j+1) i p hmem with ⟨h, hm⟩
      exact ⟨h, List.mem_cons_of_mem s hm⟩

/-- A fired dispatch walk returns the caller index and pointer of a slot of
the walked list. -/
lemma dispatchLoop_mem (env : Env) (t : Nat) (sel : Selected) :
    ∀ (hs : List Slot) (j : Nat) (out : Nat × Nat × Nat),
      dispatchLoop env t sel j hs = some out →
      ∃ h, (h, out.2.1, out.2.2) ∈ hs := by
  intro hs
  induction hs with
  | nil => intro j out hmem; simp [dispatchLoop] at hmem
  | cons s rest ih =>
    intro j out hmem
    by_cases hcond : sel = Selected.Operation ⟨env.slotAddr j⟩
    · by_cases hacc : s.1.acceptAt t j
      · simp only [dispatchLoop, hcond, if_pos, hacc, ite_true,
          Option.some.injEq] at hmem
        refine ⟨s.1, ?_⟩
        have hs2 : (s.1, out.2.1, out.2.2) = s := by rw [← hmem]
        rw [hs2]
        exact List.mem_cons_self s rest
      · simp only [dispatchLoop, if_pos hcond, hacc, ite_false] at hmem
        rcases ih (j+1) out hmem with ⟨h, hm⟩
        exact ⟨h, List.mem_cons_of_mem s hm⟩
    · simp only [dispatchLoop, if_neg hcond] at hmem
      rcases ih (j+1) out hmem with ⟨h, hm⟩
      exact ⟨h, List.mem_cons_of_mem s hm⟩

/-- A parking phase fire comes from a slot of the handle list. -/
lemma parkPhase_fire_mem (env : Env) (t : Nat) (hs : List Slot) (tm : Timeout)
    (i p : Nat) (hf : (parkPhase env t hs tm).fire = some (i, p)) :
    ∃ h, (h, i, p) ∈ hs := by
  have hfe : (parkPhase env t hs tm).fire =
      (parkDisp env t hs (parkSel env t hs (registerLoop env t 0 hs Selected.Waiting))).map
        (fun x => (x.2.1, x.2.2)) := by
    simp [parkPhase]
  rw [hfe] at hf
  rcases Option.map_eq_some'.mp hf with ⟨out, hout, houti⟩
  have hmem : ∃ h, (h, out.2.1, out.2.2) ∈ hs := by
    cases hsel : parkSel env t hs (registerLoop env t 0 hs Selected.Waiting) with
    | Waiting => rw [hsel] at hout; simp [parkDisp] at hout
    | Aborted => rw [hsel] at hout; simp [parkDisp] at hout
    | Disconnected =>
      rw [hsel] at hout
      exact dispatchLoop_mem env t _ hs 0 out hout
    | Operation op =>
      rw [hsel] at hout
      exact dispatchLoop_mem env t _ hs 0 out hout
  rcases hmem with ⟨h, hm⟩
  rcases houti ▸ hm with hm2
  exact ⟨h, hm2⟩

/-- A fired probe loop returns the caller index and pointer of a slot of the
probed list. -/
lemma probeLoop_mem (hs : List Slot) :
    ∀ (fuel : Nat) (states : List Nat) (t i p : Nat),
      probeLoop hs fuel states t = some (some (i, p)) → ∃ h, (h, i, p) ∈ hs := by
  intro fuel
  induction fuel with
  | zero => intro states t i p hm; simp [probeLoop] at hm
  | succ n ih =>
    intro states t i p hm
    simp only [probeLoop] at hm
    cases h1 : tryPass hs t with
    | some f =>
      rw [h1] at hm
      simp only [Option.some.injEq] at hm
      have hf : f = (i, p) := by
        cases hm; rfl
      rw [hf] at h1
      exact firstFireAux_mem _ t hs 0 i p h1
    | none =>
      rw [h1] at hm
      by_cases h2 : (updateStates hs states t 0).2
      · rw [if_pos h2] at hm
        exact ih _ (t+1) i p hm
      · rw [if_neg h2] at hm
        simp at hm

/-- A fired non-blocking pass returns the caller index and pointer of a slot
of the given list, provided the shuffle only reorders. -/
lemma runSelectNowFn_mem (env : Env)
    (hshuf : ∀ (u : Nat) (xs : List Slot) (x : Slot), x ∈ env.shuffle u xs → x ∈ xs)
    (hs : List Slot) (fuel t : Nat) (tok : Token) (i p : Nat)
    (hrun : runSelectNowFn env hs fuel t = some (some (tok, i, p))) :
    ∃ h, (h, i, p) ∈ hs := by
  by_cases he : hs.isEmpty
  · simp [runSelectNowFn, he] at hrun
  · by_cases hl : hs.length ≤ 1
    · simp only [runSelectNowFn, he, Bool.false_eq_true, if_false, hl,
        ite_true, Option.some.injEq] at hrun
      rcases Option.map_eq_some'.mp hrun with ⟨f, hf, hfe⟩
      have hfip : f = (i, p) := by
        have h1 := congrArg (fun x => x.2.1) hfe
        have h2 := congrArg (fun x => x.2.2) hfe
        simp at h1 h2
        cases f; simp_all
      rw [hfip] at hf
      exact firstFireAux_mem _ t hs 0 i p hf
    · simp only [runSelectNowFn, he, Bool.false_eq_true, if_false, hl,
        ite_false] at hrun
      rcases Option.map_eq_some'.mp hrun with ⟨y, hy, hye⟩
      cases y with
      | none => simp at hye
      | some f =>
        have hfip : f = (i, p) := by
          simp only [Option.map_some', Option.some.injEq] at hye
          have h1 := congrArg (fun x => x.2.1) hye
          have h2 := congrArg (fun x => x.2.2) hye
          simp at h1 h2
          cases f; simp_all
        rw [hfip] at hy
        rcases probeLoop_mem (env.shuffle t hs) fuel _ (t+1) i p hy with ⟨h, hm⟩
        exact ⟨h, hshuf t hs _ hm⟩

/-- A fired blocking loop returns the caller index and pointer of a slot of
the given list, provided the shuffle only reorders. -/
lemma blockLoop_mem (env : Env) (tm : Timeout)
    (hshuf : ∀ (u : Nat) (xs : List Slot) (x : Slot), x ∈ env.shuffle u xs → x ∈ xs) :
    ∀ (fuel : Nat) (hs : List Slot) (t : Nat) (tok : Token) (i p : Nat),
      blockLoop env tm fuel hs t = some (some (tok, i, p)) →
      ∃ h, (h, i, p) ∈ hs := by
  intro fuel
  induction fuel with
  | zero => intro hs t tok i p hm; simp [blockLoop] at hm
  | succ n ih =>
    intro hs t tok i p hm
    simp only [blockLoop] at hm
    have hsub : ∀ x : Slot, x ∈ (if hs.length ≥ 2 then env.shuffle t hs else hs) →
        x ∈ hs := by
      intro x hx
      by_cases hc : hs.length ≥ 2
      · rw [if_pos hc] at hx; exact hshuf t hs x hx
      · rw [if_neg hc] at hx; exact hx
    cases h1 : tryPass (if hs.length ≥ 2 then env.shuffle t hs else hs) t with
    | some f =>
      rw [h1] at hm
      simp only [Option.some.injEq] at hm
      have hfip : f = (i, p) := by
        have h2 := congrArg (fun x => x.2.1) hm
        have h3 := congrArg (fun x => x.2.2) hm
        simp at h2 h3
        cases f; simp_all
      rw [hfip] at h1
      rcases firstFireAux_mem _ t _ 0 i p h1 with ⟨h, hmem⟩
      exact ⟨h, hsub _ hmem⟩
    | none =>
      rw [h1] at hm
      cases h2 : retryPass (if hs.length ≥ 2 then env.shuffle t hs else hs) t with
      | some f =>
        rw [h2] at hm
        simp only [Option.some.injEq] at hm
        have hfip : f = (i, p) := by
          have h3 := congrArg (fun x => x.2.1) hm
          have h4 := congrArg (fun x => x.2.2) hm
          simp at h3 h4
          cases f; simp_all
        rw [hfip] at h2
        rcases firstFireAux_mem _ t _ 0 i p h2 with ⟨h, hmem⟩
        exact ⟨h, hsub _ hmem⟩
      | none =>
        rw [h2] at hm
        cases h3 : (parkPhase env t (if hs.length ≥ 2 then env.shuffle t hs else hs)
            tm).fire with
        | some f =>
          rw [h3] at hm
          simp only [Option.some.injEq] at hm
          have hfip : f = (i, p) := by
            have h4 := congrArg (fun x => x.2.1) hm
            have h5 := congrArg (fun x => x.2.2) hm
            simp at h4 h5
            cases f; simp_all
          rw [hfip] at h3
          rcases parkPhase_fire_mem env t _ tm i p h3 with ⟨h, hmem⟩
          exact ⟨h, hsub _ hmem⟩
        | none =>
          rw [h3] at hm
          cases tm with
          | Now => simp at hm
          | Never =>
            rcases ih _ (t+1) tok i p hm with ⟨h, hmem⟩
            exact ⟨h, hsub _ hmem⟩
          | At when =>
            have hm2 : (if env.now t ≥ when then
                runSelectNowFn env (if hs.length ≥ 2 then env.shuffle t hs else hs)
                  n (t+1)
              else blockLoop env (Timeout.At when) n
                (if hs.length ≥ 2 then env.shuffle t hs else hs) (t+1)) =
                some (some (tok, i, p)) := hm
            by_cases h4 : env.now t ≥ when
            · rw [if_pos h4] at hm2
              rcases runSelectNowFn_mem env hshuf _ n (t+1) tok i p hm2 with ⟨h, hmem⟩
              exact ⟨h, hsub _ hmem⟩
            · rw [if_neg h4] at hm2
              rcases ih _ (t+1) tok i p hm2 with ⟨h, hmem⟩
              exact ⟨h, hsub _ hmem⟩

/-- Every fired operation reported by `run_select` carries the caller index
and opaque pointer of a slot of the handle list it was given. -/
lemma runSelect_mem (env : Env) (hs : List Slot) (tm : Timeout)
    (fuel t : Nat) (tok : Token) (i p : Nat)
    (hshuf : ∀ (u : Nat) (xs : List Slot) (x : Slot), x ∈ env.shuffle u xs → x ∈ xs)
    (hrun : runSelect env hs tm fuel t = some (some (tok, i, p))) :
    ∃ h, (h, i, p) ∈ hs := by
  by_cases he : hs.isEmpty
  · cases tm <;> simp [runSelect, he] at hrun
  · by_cases ht : tm = Timeout.Now
    · rw [ht] at hrun
      simp only [runSelect, he, Bool.false_eq_true, if_false, ite_true] at hrun
      exact runSelectNowFn_mem env hshuf hs fuel t tok i p hrun
    · simp only [runSelect, he, Bool.false_eq_true, if_false, ht, ite_false] at hrun
      exact blockLoop_mem env tm hshuf fuel hs t tok i p hrun

/-- Folding `Select::recv` over a handle list appends one triple per handle,
with monotonically assigned caller indices starting at the current length and
the endpoint address as the opaque pointer. -/
lemma buildRecv_handles_aux :
    ∀ (l : List SelectHandle) (b : Select),
      (l.foldl (fun b h => (Select.recv b h).2) b).handles =
        b.handles ++ (List.enumFrom b.handles.length l).map
          (fun x => (x.2, x.1, x.2.addr)) := by
  intro l
  induction l with
  | nil => intro b; simp
  | cons h l ih =>
    intro b
    have hstep : (Select.recv b h).2 =
        ⟨b.handles ++ [(h, b.handles.length, h.addr)]⟩ := rfl
    have hlen : ((Select.recv b h).2).handles.length = b.handles.length + 1 := by
      rw [hstep]; simp
    calc ((h :: l).foldl (fun b h => (Select.recv b h).2) b).handles
        = (l.foldl (fun b h => (Select.recv b h).2) (Select.recv b h).2).handles := rfl
      _ = ((Select.recv b h).2).handles ++
            (List.enumFrom ((Select.recv b h).2).handles.length l).map
              (fun x => (x.2, x.1, x.2.addr)) := ih _
      _ = (b.handles ++ [(h, b.handles.length, h.addr)]) ++
            (List.enumFrom (b.handles.length + 1) l).map
              (fun x => (x.2, x.1, x.2.addr)) := by rw [hstep]; simp
      _ = b.handles ++ (List.enumFrom b.handles.length (h :: l)).map
              (fun x => (x.2, x.1, x.2.addr)) := by
            rw [List.append_assoc]
            rfl

/-- The handle list of a builder filled via `Select::recv` enumerates the
endpoints in order with caller index equal to position and opaque pointer
equal to the endpoint address. -/
lemma buildRecv_handles (l : List SelectHandle) :
    (buildRecv l).handles =
      (List.enumFrom 0 l).map (fun x => (x.2, x.1, x.2.addr)) := by
  have h := buildRecv_handles_aux l Select.new
  simpa [buildRecv, Select.new] using h

/-- Membership in an enumerated builder list determines the endpoint at the
caller index and ties the opaque pointer to its address. -/
lemma mem_enumFrom_map :
    ∀ (l : List SelectHandle) (n : Nat) (h : SelectHandle) (i p : Nat),
      (h, i, p) ∈ (List.enumFrom n l).map (fun x => (x.2, x.1, x.2.addr)) →
      n ≤ i ∧ l[i - n]? = some h ∧ p = h.addr := by
  intro l
  induction l with
  | nil => intro n h i p hm; simp at hm
  | cons a l ih =>
    intro n h i p hm
    have hm2 : (h, i, p) = (a, n, a.addr) ∨
        (h, i, p) ∈ (List.enumFrom (n+1) l).map (fun x => (x.2, x.1, x.2.addr)) := by
      have : List.enumFrom n (a :: l) = (n, a) :: List.enumFrom (n+1) l := rfl
      rw [this] at hm
      simpa using hm
    cases hm2 with
    | inl heq =>
      have hh : h = a := congrArg Prod.fst heq
      have hi : i = n := congrArg (fun x => x.2.1) heq
      have hp : p = a.addr := congrArg (fun x => x.2.2) heq
      refine ⟨by omega, ?_, by rw [hp, hh]⟩
      rw [hi, Nat.sub_self]
      simp [hh]
    | inr hmem =>
      rcases ih (n+1) h i p hmem with ⟨hle, hget, hp⟩
      refine ⟨by omega, ?_, hp⟩
      have harith : i - n = (i - (n+1)) + 1 := by omega
      rw [harith]
      simpa using hget

/-- C8: round-trip identity.  Adding the k-th operation through the builder
returns caller index k (the current list length), and every successful
selection that fires that operation yields a completion handle whose index
equals k and whose stored opaque pointer equals that endpoint address, so the
endpoint-identity assertion passes when the caller redeems with the same
endpoint. -/
theorem fired_index_roundtrip (l : List SelectHandle) (env : Env) (tm : Timeout)
    (fuel t k p : Nat) (tok : Token) (h : SelectHandle)
    (hshuf : ∀ (u : Nat) (xs : List Slot) (x : Slot), x ∈ env.shuffle u xs → x ∈ xs)
    (hk : l[k]? = some h)
    (hrun : runSelect env (buildRecv l).handles tm fuel t = some (some (tok, k, p))) :
    ((buildRecv (l.take k)).recv h).1 = k ∧
    p = h.addr ∧
    SelectedCase.recvAssert ⟨tok, k, p⟩ h = Except.ok () := by
  have hklt : k < l.length := by
    by_contra hc
    push_neg at hc
    rw [List.getElem?_eq_none hc] at hk
    simp at hk
  rcases runSelect_mem env (buildRecv l).handles tm fuel t tok k p hshuf hrun
    with ⟨hx, hmem⟩
  rw [buildRecv_handles] at hmem
  rcases mem_enumFrom_map l 0 hx k p hmem with ⟨_, hget, hp⟩
  rw [Nat.sub_zero, hk] at hget
  have hxh : hx = h := by
    injection hget.symm
  subst hxh
  refine ⟨?_, hp, ?_⟩
  · show (buildRecv (l.take k)).handles.length = k
    rw [buildRecv_handles, List.length_map, List.enumFrom_length,
      List.length_take]
    omega
  · simp [SelectedCase.recvAssert, hp]

/-- Witness for `fired_index_roundtrip`: one always-ready handle at address 7
fires in a non-blocking selection. -/
theorem fired_index_roundtrip_witness :
    ((buildRecv (List.take 0 [readyHandle 7])).recv (readyHandle 7)).1 = 0 ∧
    7 = (readyHandle 7).addr ∧
    SelectedCase.recvAssert ⟨Token.mk, 0, 7⟩ (readyHandle 7) = Except.ok () :=
  fired_index_roundtrip [readyHandle 7] envQuiet Timeout.Now 1 0 0 7 Token.mk
    (readyHandle 7) (fun _ _ _ hx => hx) rfl rfl

/-- C9 counterexample: dropping a `SelectedCase` without redeeming it runs
the `Drop` implementation of select.rs lines 584-588, which panics with a
message — it does not abort the process as the claim states. -/
theorem drop_case_panics_not_aborts :
    SelectedCase.dropRun ⟨Token.mk, 0, 7⟩ = Fault.panic dropCaseMsg ∧
    Fault.isAbort (SelectedCase.dropRun ⟨Token.mk, 0, 7⟩) = false :=
  ⟨rfl, rfl⟩

/-- C9 (amended): misuse of the completion handle faults loudly: redeeming via
recv or send with an endpoint whose address differs from the stored opaque
pointer fails the endpoint-identity assertion with a panic, and dropping the
handle without redeeming it reaches the scoped-release path, which panics
(not aborts); after a successful recv or send the handle is retired through
`mem::forget` without running that destructor. -/
theorem case_misuse_faults (c : SelectedCase) (r s : SelectHandle) (m : Nat)
    (ok1 ok2 : Bool) (hr : r.addr ≠ c.ptr) (hsx : s.addr = c.ptr) :
    SelectedCase.recvCase c r ok1 = Except.error (Fault.panic wrongReceiverMsg) ∧
    SelectedCase.sendCase c r m ok1 = Except.error (Fault.panic wrongSenderMsg) ∧
    SelectedCase.recvCase c s ok2 =
      Except.ok ((if ok2 then Except.ok () else Except.error ⟨⟩), false) ∧
    SelectedCase.sendCase c s m ok2 =
      Except.ok ((if ok2 then Except.ok () else Except.error ⟨m⟩), false) ∧
    SelectedCase.dropRun c = Fault.panic dropCaseMsg := by
  refine ⟨?_, ?_, ?_, ?_, rfl⟩
  · simp [SelectedCase.recvCase, SelectedCase.recvAssert, hr]
  · simp [SelectedCase.sendCase, SelectedCase.sendAssert, hr]
  · simp [SelectedCase.recvCase, SelectedCase.recvAssert, hsx]
  · simp [SelectedCase.sendCase, SelectedCase.sendAssert, hsx]

/-- Witness for `case_misuse_faults`: a completion handle for the endpoint at
address 7, a wrong endpoint at address 5, the matching endpoint at 7. -/
theorem case_misuse_faults_witness :
    (idleHandle 5).addr ≠ (⟨Token.mk, 0, 7⟩ : SelectedCase).ptr ∧
    (SelectedCase.recvCase ⟨Token.mk, 0, 7⟩ (idleHandle 5) true =
        Except.error (Fault.panic wrongReceiverMsg) ∧
      SelectedCase.sendCase ⟨Token.mk, 0, 7⟩ (idleHandle 5) 3 true =
        Except.error (Fault.panic wrongSenderMsg) ∧
      SelectedCase.recvCase ⟨Token.mk, 0, 7⟩ (idleHandle 7) false =
        Except.ok ((if false then Except.ok () else Except.error ⟨⟩), false) ∧
      SelectedCase.sendCase ⟨Token.mk, 0, 7⟩ (idleHandle 7) 3 false =
        Except.ok ((if false then Except.ok () else Except.error ⟨3⟩), false) ∧
      SelectedCase.dropRun ⟨Token.mk, 0, 7⟩ = Fault.panic dropCaseMsg) :=
  ⟨by decide,
   case_misuse_faults ⟨Token.mk, 0, 7⟩ (idleHandle 5) (idleHandle 7) 3 true false
     (by decide) (by decide)⟩

end Crossbeam
